import Mathlib

/-!
Verification of the timeline-extraction core of the firefox-scraper
extension (`background.js`, current revision: the queue-based walker).

The JavaScript is shallowly embedded over a JSON-like value type `JVal`
(`undefined`, `null`, booleans, numbers, strings, arrays, objects).
JavaScript semantics modelled explicitly:
  * property access `x.f` throws a TypeError when `x` is `null`/`undefined`
    (`jsPropE`), yields `undefined` on primitives, and looks the field up on
    objects (`jsProp`);
  * optional chaining `x?.f` (`jsOptProp`) yields `undefined` instead of
    throwing;
  * `a ?? b` (`jsCoalesce`) tests for `null`/`undefined`, `a || b` (`jsOr`)
    and the ternary test for truthiness (`jsTruthy`);
  * array spread `[...v]` / `push(...v)` succeeds on arrays and strings and
    throws on anything else (`spreadElems`);
  * `.length` (`jsLen`) is the element count of arrays and strings and an
    ordinary field of objects.
Numbers are `Int` (the payload fields the code touches are ids and counts;
no float arithmetic is performed on them).  Fallible code returns
`Except String`; the background script's `while` loop over the work queue is
embedded with explicit fuel, and the theorems show any fuel above the payload
size bound completes the walk.
-/

mutual
inductive JVal where
  | undefined
  | null
  | bool (b : Bool)
  | num (n : Int)
  | str (s : String)
  | arr (xs : JArr)
  | obj (flds : JObj)
deriving Repr

inductive JArr where
  | nil
  | cons (v : JVal) (rest : JArr)
deriving Repr

inductive JObj where
  | nil
  | cons (k : String) (v : JVal) (rest : JObj)
deriving Repr
end

-- Structural value equality, the model of `===` / `SameValueZero` on the
-- string/number ids the code compares (the code only ever compares ids and
-- type tags, which are JSON scalars).
mutual
def jeq : JVal → JVal → Bool
  | .undefined, .undefined => true
  | .null, .null => true
  | .bool a, .bool b => a == b
  | .num a, .num b => a == b
  | .str a, .str b => a == b
  | .arr a, .arr b => jeqA a b
  | .obj a, .obj b => jeqO a b
  | _, _ => false

def jeqA : JArr → JArr → Bool
  | .nil, .nil => true
  | .cons v r, .cons v' r' => jeq v v' && jeqA r r'
  | _, _ => false

def jeqO : JObj → JObj → Bool
  | .nil, .nil => true
  | .cons k v r, .cons k' v' r' => k == k' && jeq v v' && jeqO r r'
  | _, _ => false
end

/-- Build a `JObj` from a Lean list (object literals in enumeration order). -/
def objOf : List (String × JVal) → JObj
  | [] => .nil
  | (k, v) :: rest => .cons k v (objOf rest)

/-- Build a `JArr` from a Lean list. -/
def arrOf : List JVal → JArr
  | [] => .nil
  | v :: rest => .cons v (arrOf rest)

/-- Object literal helper. -/
def jobj (l : List (String × JVal)) : JVal := .obj (objOf l)

/-- Array literal helper. -/
def jarr (l : List JVal) : JVal := .arr (arrOf l)

/-- The elements of a JS array as a Lean list. -/
def elemsA : JArr → List JVal
  | .nil => []
  | .cons v rest => v :: elemsA rest

/-- Number of elements of a JS array. -/
def lenA : JArr → Nat
  | .nil => 0
  | .cons _ rest => lenA rest + 1

/-- Field lookup in enumeration order; `none` models an absent key. -/
def lookupO : JObj → String → Option JVal
  | .nil, _ => none
  | .cons k v rest, f => if k = f then some v else lookupO rest f

/-- True exactly on `null` and `undefined` (the values `??` and `?.` test). -/
def jsNullish : JVal → Bool
  | .undefined => true
  | .null => true
  | _ => false

/-- JavaScript truthiness. -/
def jsTruthy : JVal → Bool
  | .undefined => false
  | .null => false
  | .bool b => b
  | .num n => !(n == 0)
  | .str s => !(s == "")
  | .arr _ => true
  | .obj _ => true

/-- `a ?? b`. -/
def jsCoalesce (a b : JVal) : JVal := if jsNullish a then b else a

/-- `a || b`. -/
def jsOr (a b : JVal) : JVal := if jsTruthy a then a else b

/-- Property read on a value known not to be nullish: fields of objects,
`undefined` on primitives and arrays (the code never reads a named field
off an array). -/
def jsProp (v : JVal) (f : String) : JVal :=
  match v with
  | .obj flds => (lookupO flds f).getD .undefined
  | _ => .undefined

/-- Plain (non-optional) property access `x.f`: throws on `null`/`undefined`. -/
def jsPropE (v : JVal) (f : String) : Except String JVal :=
  if jsNullish v then .error ("TypeError: cannot read " ++ f ++ " of nullish")
  else .ok (jsProp v f)

/-- Optional chaining `x?.f`. -/
def jsOptProp (v : JVal) (f : String) : JVal :=
  if jsNullish v then .undefined else jsProp v f

/-- The `.length` read: element count of arrays and strings, an ordinary
field of objects, `undefined` otherwise. -/
def jsLen : JVal → JVal
  | .arr xs => .num (lenA xs)
  | .str s => .num (Int.ofNat s.length)
  | .obj flds => (lookupO flds "length").getD .undefined
  | _ => .undefined

/-- Optional `x?.length`. -/
def jsOptLen (v : JVal) : JVal :=
  if jsNullish v then .undefined else jsLen v

/-- Array spread `[...v]` / `push(...v)`: succeeds on arrays and strings
(strings spread into one-character strings), throws on anything else. -/
def spreadElems : JVal → Except String (List JVal)
  | .arr xs => .ok (elemsA xs)
  | .str s => .ok (s.data.map (fun c => .str (String.mk [c])))
  | _ => .error "TypeError: value is not iterable"

-- Sizes, used for fuel bounds on the work-queue loop.
mutual
def sizeJ : JVal → Nat
  | .arr xs => sizeA xs + 1
  | .obj flds => sizeO flds + 1
  | _ => 1

def sizeA : JArr → Nat
  | .nil => 0
  | .cons v rest => sizeJ v + sizeA rest

def sizeO : JObj → Nat
  | .nil => 0
  | .cons _ v rest => sizeJ v + sizeO rest
end

/-- Total size of a work queue. -/
def sizeQ (q : List JVal) : Nat := (q.map sizeJ).sum

example : jeq (jobj [("a", .num 1)]) (jobj [("a", .num 1)]) = true := rfl
example : jsCoalesce .null (.num 3) = .num 3 := rfl
example : jsProp (jobj [("x", .str "y")]) "x" = .str "y" := rfl
example : jsOptLen (jarr [.num 1, .num 2]) = .num 2 := rfl

/-!
Timeline Locator (`extractTimeline`, background.js).  The source returns the
current value when it is an object carrying an `instructions` array, otherwise
recurses into every property value (object fields, array elements) in
enumeration order and returns the first non-null result; primitives and `null`
yield `null`.
-/

/-- The test `obj.instructions && Array.isArray(obj.instructions)`. -/
def isContainer (v : JVal) : Bool :=
  match v with
  | .obj flds =>
    match lookupO flds "instructions" with
    | some (.arr _) => true
    | _ => false
  | _ => false

mutual
def extractTimeline : JVal → Option JVal
  | .obj flds =>
    if isContainer (.obj flds) then some (.obj flds)
    else extractFields flds
  | .arr xs => extractElems xs
  | _ => none

def extractFields : JObj → Option JVal
  | .nil => none
  | .cons _ v rest =>
    match extractTimeline v with
    | some t => some t
    | none => extractFields rest

def extractElems : JArr → Option JVal
  | .nil => none
  | .cons v rest =>
    match extractTimeline v with
    | some t => some t
    | none => extractElems rest
end

/-!
Entity Flattener (`flatten`, background.js).  The only throwing operations are
the very first field access `tweet.legacy` (throws when `tweet` is nullish)
and `(l.referenced_tweets ?? []).map(r => r.id_str)` (throws when a present,
non-null `referenced_tweets` is not an array, or contains a nullish element).
-/

structure Rec where
  tweet_id : JVal
  created_at : JVal
  text : JVal
  lang : JVal
  favorite : JVal
  retweet : JVal
  reply : JVal
  quote : JVal
  favorite_count : JVal
  retweet_count : JVal
  reply_count : JVal
  quote_count : JVal
  user_handle : JVal
  parent_ids : List JVal
  raw : JVal
deriving Repr

/-- Element-wise `r => r.id_str`, stopping at the first nullish element. -/
def mapIdStrL : List JVal → Except String (List JVal)
  | [] => .ok []
  | r :: rest => do
    let a ← jsPropE r "id_str"
    let as ← mapIdStrL rest
    .ok (a :: as)

/-- `arrayValue.map(r => r.id_str)`: throws on non-array receivers and on
nullish elements. -/
def mapIdStr : JVal → Except String (List JVal)
  | .arr xs => mapIdStrL (elemsA xs)
  | _ => .error "TypeError: map is not a function"

def flatten (tweet : JVal) : Except String Rec := do
  let l := jsCoalesce (← jsPropE tweet "legacy") (jobj [])
  let u := jsCoalesce
    (jsOptProp (jsOptProp (jsOptProp (jsOptProp tweet "core") "user_results") "result") "legacy")
    (jobj [])
  let quoted := jsOptProp (jsOptProp tweet "quoted_status_result") "result"
  let retweeted := jsOptProp (jsOptProp tweet "retweeted_status_result") "result"
  let refIds ← mapIdStr (jsCoalesce (jsProp l "referenced_tweets") (jarr []))
  let parents :=
    (refIds ++
      [jsProp l "in_reply_to_status_id_str",
       jsProp l "quoted_status_id_str",
       jsOptProp quoted "rest_id"] ++
      (if jsTruthy (jsOptProp retweeted "rest_id") then [jsProp retweeted "rest_id"] else [])).filter
      (fun v => jsTruthy v)
  pure {
    tweet_id := jsProp tweet "rest_id"
    created_at := jsProp l "created_at"
    text := jsOr (jsProp l "full_text") (jsProp l "text")
    lang := jsProp l "lang"
    favorite := jsProp l "favorite_count"
    retweet := jsProp l "retweet_count"
    reply := jsProp l "reply_count"
    quote := jsProp l "quote_count"
    favorite_count := jsProp l "favorite_count"
    retweet_count := jsProp l "retweet_count"
    reply_count := jsProp l "reply_count"
    quote_count := jsProp l "quote_count"
    user_handle := jsProp u "screen_name"
    parent_ids := parents
    raw := tweet
  }

/-!
Dedup Store: the global `tweets` Map, keyed by `tw.rest_id`, written only
through the guarded `if (!tweets.has(tw.rest_id)) tweets.set(...)` pattern,
which preserves insertion order and gives first-write-wins.
-/

abbrev Store := List (JVal × Rec)

def storeHas (s : Store) (k : JVal) : Bool := s.any (fun p => jeq p.1 k)

/-- The walker's guarded insert, including the `added++` counter. -/
def addTweet (tw : JVal) (s : Store) (added : Nat) : Except String (Store × Nat) :=
  if storeHas s (jsProp tw "rest_id") then .ok (s, added)
  else do
    let r ← flatten tw
    .ok (s ++ [(jsProp tw "rest_id", r)], added + 1)

/-!
Entry Tree Walker (the `while (queue.length)` loop of PROCESS_TIMELINE_DATA).
A dequeued entry is first probed as a wrapper via `ent?.content?.items?.length`
then `ent?.item?.items?.length`; a truthy length enqueues the spread items at
the back of the queue.  Otherwise the leaf path
`(ent.content ?? ent.item)?.itemContent` / `?.tweet_results?.result` is
resolved and a node whose `__typename` is `"Tweet"` is stored.
-/

def contentItems (ent : JVal) : JVal := jsOptProp (jsOptProp ent "content") "items"

def itemItems (ent : JVal) : JVal := jsOptProp (jsOptProp ent "item") "items"

/-- The logging tag `ent.entryId || ent.content?.entryType || "unknown"`
(line 763); the `||` chain makes it the first truthy operand, `"unknown"`
as last resort. -/
def entryTypeOf (ent : JVal) : JVal :=
  jsOr (jsProp ent "entryId")
    (jsOr (jsOptProp (jsProp ent "content") "entryType") (.str "unknown"))

/-- Whether `entryType.includes(...)` is callable: strings and arrays carry
an `includes` method; any other (necessarily truthy) result of the `||`
chain makes the non-Tweet logging guard (line 781) throw a TypeError. -/
def includesOk : JVal → Bool
  | .str _ => true
  | .arr _ => true
  | _ => false

/-- Per-leaf-entry step; `ent.content` throws when `ent` is nullish.  The
non-Tweet branch only logs (no store/counter/queue effect), but its guard
`!entryType.includes("cursor") && ...` throws when the logging tag does not
carry `.includes`, aborting the whole call. -/
def processEnt (ent : JVal) (s : Store) (added : Nat) : Except String (Store × Nat) := do
  let c ← jsPropE ent "content"
  let ic := jsOptProp (jsCoalesce c (jsProp ent "item")) "itemContent"
  let tw := jsOptProp (jsOptProp ic "tweet_results") "result"
  let et := entryTypeOf ent
  if jeq (jsOptProp tw "__typename") (.str "Tweet") then addTweet tw s added
  else if includesOk et then .ok (s, added)
  else .error "TypeError: entryType.includes is not a function"

inductive RunStatus where
  | done
  | failed (msg : String)
  | fuelOut
deriving Repr, DecidableEq

/-- The work-queue walk, with explicit fuel standing for the while loop. -/
def runQueue : Nat → List JVal → Store → Nat → Store × Nat × RunStatus
  | _, [], s, n => (s, n, .done)
  | 0, _ :: _, s, n => (s, n, .fuelOut)
  | fuel + 1, ent :: q, s, n =>
    let w1 := contentItems ent
    if jsTruthy (jsOptLen w1) then
      match spreadElems w1 with
      | .error e => (s, n, .failed e)
      | .ok xs => runQueue fuel (q ++ xs) s n
    else
      let w2 := itemItems ent
      if jsTruthy (jsOptLen w2) then
        match spreadElems w2 with
        | .error e => (s, n, .failed e)
        | .ok xs => runQueue fuel (q ++ xs) s n
      else
        match processEnt ent s n with
        | .error e => (s, n, .failed e)
        | .ok (s', n') => runQueue fuel q s' n'

/-!
Instruction Dispatcher (the `for (const instr of tl.instructions ?? [])` loop).
-/

/-- Entry-list resolution, source line
`instr.entries ?? (instr.entry ? [instr.entry] : instr.module?.items ?? []) ?? []`. -/
def resolveEntries (instr : JVal) : JVal :=
  jsCoalesce
    (jsCoalesce (jsProp instr "entries")
      (if jsTruthy (jsProp instr "entry") then jarr [jsProp instr "entry"]
       else jsCoalesce (jsOptProp (jsProp instr "module") "items") (jarr [])))
    (jarr [])

def recognizedTypes : List String :=
  ["TimelineAddEntries", "TimelineReplaceEntry", "TimelineAddToModule",
   "TimelineTerminateTimeline", "TimelinePinEntry"]

def isRecognized (ty : JVal) : Bool :=
  recognizedTypes.any (fun t => jeq ty (.str t))

def runInstrs (fuel : Nat) : List JVal → Store → Nat → Store × Nat × RunStatus
  | [], s, n => (s, n, .done)
  | instr :: rest, s, n =>
    match jsPropE instr "type" with
    | .error e => (s, n, .failed e)
    | .ok ty =>
      if jeq ty (.str "TimelineClearCache") then runInstrs fuel rest [] n
      else if !isRecognized ty then runInstrs fuel rest s n
      else
        match spreadElems (resolveEntries instr) with
        | .error e => (s, n, .failed e)
        | .ok root =>
          match runQueue fuel root s n with
          | (s', n', .done) => runInstrs fuel rest s' n'
          | (s', n', st) => (s', n', st)

/-!
The PROCESS_TIMELINE_DATA handler.  `JSON.parse` is an external builtin; its
result is modelled as `Option JVal` (`none` for an unparseable payload).  The
handler touches only the `tweets` store; the phase-state fields
(`savedUsername`, `currentScope`, `scopeQueue`) are part of the state to make
that visible.  The surrounding `try`/`catch` keeps any store mutations already
performed when an exception interrupts the loop, and answers
`{success: false, error}`.
-/

structure ProcResp where
  success : Bool
  added : Option Nat
  total : Option Nat
  error : Option String
deriving Repr, DecidableEq

structure ScraperState where
  tweets : Store
  savedUsername : Option String
  currentScope : Option String
  scopeQueue : List String

/-- `tl.instructions ?? []` as an iteration list; `extractTimeline` guarantees
the field is an array on every container it returns. -/
def instructionsOf (tl : JVal) : List JVal :=
  match jsCoalesce (jsProp tl "instructions") (jarr []) with
  | .arr xs => elemsA xs
  | _ => []

def processTimelineData (fuel : Nat) (parsed : Option JVal) (st : ScraperState) :
    ProcResp × ScraperState :=
  match parsed with
  | none =>
    ({ success := false, added := none, total := none, error := some "JSON.parse failed" }, st)
  | some page =>
    match extractTimeline page with
    | none =>
      ({ success := false, added := none, total := none, error := some "No timeline found" }, st)
    | some tl =>
      match runInstrs fuel (instructionsOf tl) st.tweets 0 with
      | (s', added, .done) =>
        ({ success := true, added := some added, total := some s'.length, error := none },
         { st with tweets := s' })
      | (s', _, .failed e) =>
        ({ success := false, added := none, total := none, error := some e },
         { st with tweets := s' })
      | (s', _, .fuelOut) =>
        ({ success := false, added := none, total := none, error := some "model: fuel exhausted" },
         { st with tweets := s' })

/-!
Destination resolution (`makeUrl`, background.js).  The regex
`/^https:\/\/(?:x|twitter)\.com\/([^\/?#]+)/i` is embedded over character
lists: a case-insensitive prefix test followed by taking the non-empty run of
characters other than `/`, `?`, `#` (from the original string, case
preserved).  `savedUsername` is the module-global the function updates; it is
threaded in and out explicitly.
-/

def reservedSegments : List String :=
  ["i", "home", "explore", "notifications", "messages", "settings", "search"]

def lcData (s : String) : List Char := s.data.map Char.toLower

def urlSegmentStart (baseUrl : String) : Option Nat :=
  if "https://x.com/".data.isPrefixOf (lcData baseUrl) then some 14
  else if "https://twitter.com/".data.isPrefixOf (lcData baseUrl) then some 20
  else none

def extractedSegment (baseUrl : String) : Option String :=
  match urlSegmentStart baseUrl with
  | none => none
  | some n =>
    let seg := (baseUrl.data.drop n).takeWhile (fun c => c != '/' && c != '?' && c != '#')
    if seg.isEmpty then none else some (String.mk seg)

def makeUrl (scope baseUrl : String) (savedUsername : Option String) :
    String × Option String :=
  let saved :=
    match extractedSegment baseUrl with
    | some e => if reservedSegments.contains e then savedUsername else some e
    | none => savedUsername
  match saved with
  | none => (baseUrl, saved)
  | some username =>
    match scope with
    | "tweets" => ("https://x.com/" ++ username, saved)
    | "replies" => ("https://x.com/" ++ username ++ "/with_replies", saved)
    | "likes" => ("https://x.com/" ++ username ++ "/likes", saved)
    | "bookmarks" => ("https://x.com/i/bookmarks", saved)
    | _ => (baseUrl, saved)

example : makeUrl "bookmarks" "https://x.com/Alice" none =
    ("https://x.com/i/bookmarks", some "Alice") := rfl
example : makeUrl "likes" "https://X.com/Alice?ref=1" none =
    ("https://x.com/Alice/likes", some "Alice") := rfl
example : makeUrl "bookmarks" "https://x.com/home" none = ("https://x.com/home", none) := rfl

/-!
Small facts about the JS helpers, shared by several claim proofs.
-/

theorem jsOptProp_of_nullish {v : JVal} (h : jsNullish v = true) (f : String) :
    jsOptProp v f = .undefined := by
  simp [jsOptProp, h]

theorem jsCoalesce_of_nullish {a : JVal} (h : jsNullish a = true) (b : JVal) :
    jsCoalesce a b = b := by
  simp [jsCoalesce, h]

theorem jsCoalesce_of_not_nullish {a : JVal} (h : jsNullish a = false) (b : JVal) :
    jsCoalesce a b = a := by
  simp [jsCoalesce, h]

theorem jsNullish_jarr (l : List JVal) : jsNullish (jarr l) = false := rfl

theorem exceptBind_ok {α β : Type} (a : α) (f : α → Except String β) :
    (Except.ok a >>= f) = f a := rfl

theorem exceptBind_error {α β : Type} (e : String) (f : α → Except String β) :
    ((Except.error e : Except String α) >>= f) = .error e := rfl

/-!
Claim C1.  Entry-list resolution.  `entriesPerClaim` is modelled from the
claim's wording ("strict first-non-null precedence": `entries` when present
and non-null, else `[entry]` when `entry` is present and non-null, else
`module.items` when present, else empty); `resolveEntries` is the source
expression.  They disagree: the source tests `entry` for *truthiness*
(`instr.entry ? [instr.entry] : ...`), so a present, non-null but falsy
`entry` (`false`, `0`, `""`) is skipped, and a present-but-null
`module.items` resolves to the empty list, not to `null`.
-/

/-- Modelled from the claim's wording (spec 4.2) for comparison with the
source's `resolveEntries`. -/
def entriesPerClaim (instr : JVal) : JVal :=
  let e := jsProp instr "entries"
  if !jsNullish e then e
  else
    let en := jsProp instr "entry"
    if !jsNullish en then jarr [en]
    else
      match jsOptProp (jsProp instr "module") "items" with
      | .undefined => jarr []
      | mi => mi

/-- The claim amended at the two points the counterexamples force: the
`entry` fallback fires on a *truthy* `entry`, and the `module.items`
fallback requires the items to be present and non-null. -/
def entriesAmended (instr : JVal) : JVal :=
  let e := jsProp instr "entries"
  if !jsNullish e then e
  else
    let en := jsProp instr "entry"
    if jsTruthy en then jarr [en]
    else
      let mi := jsOptProp (jsProp instr "module") "items"
      if !jsNullish mi then mi else jarr []

/-- An instruction whose `entry` is present and non-null but falsy, with
`module.items` also present. -/
def instrEntryFalse : JVal :=
  jobj [("type", .str "TimelineAddEntries"), ("entry", .bool false),
        ("module", jobj [("items", jarr [.str "x"])])]

/-- An instruction whose `module.items` is present but null. -/
def instrItemsNull : JVal :=
  jobj [("type", .str "TimelineAddEntries"), ("module", jobj [("items", .null)])]

/-- Claim C1, counterexample: the source resolution does not follow the
claimed strict first-non-null precedence.  On `instrEntryFalse` the claimed
precedence picks `[entry]` = `[false]` while the code resolves the
module-sourced list `["x"]`; on `instrItemsNull` the claimed precedence
yields `null` while the code yields `[]`. -/
theorem C1_counterexample :
    resolveEntries instrEntryFalse ≠ entriesPerClaim instrEntryFalse
  ∧ resolveEntries instrEntryFalse = jarr [.str "x"]
  ∧ entriesPerClaim instrEntryFalse = jarr [.bool false]
  ∧ resolveEntries instrItemsNull = jarr []
  ∧ entriesPerClaim instrItemsNull = .null := by
  refine ⟨?_, rfl, rfl, rfl, rfl⟩
  intro h
  have h' : jarr [.str "x"] = jarr [.bool false] := h
  simp [jarr, arrOf] at h'

/-- Claim C1 (amended): the resolved entry list follows first-non-null
precedence for `entries`, then a *truthiness* test on `entry`, then
`module.items` when present and non-null, else the empty list; moreover an
instruction exposing only `module.items` resolves to exactly that list, and
a present non-null `entries` wins even when `entry` and `module` are also
present. -/
theorem C1_amended : ∀ instr : JVal,
    resolveEntries instr = entriesAmended instr
  ∧ (∀ ty items, resolveEntries
      (jobj [("type", ty), ("module", jobj [("items", jarr items)])]) = jarr items)
  ∧ (∀ e en m, jsNullish e = false →
      resolveEntries (jobj [("entries", e), ("entry", en), ("module", m)]) = e) := by
  intro instr
  refine ⟨?_, fun ty items => rfl, fun e en m h => ?_⟩
  · unfold resolveEntries entriesAmended
    by_cases h1 : jsNullish (jsProp instr "entries")
    · by_cases h2 : jsTruthy (jsProp instr "entry")
      · simp [jsCoalesce, h1, h2, jsNullish_jarr]
      · by_cases h3 : jsNullish (jsOptProp (jsProp instr "module") "items")
        · simp [jsCoalesce, h1, h2, h3, jsNullish_jarr]
        · simp [jsCoalesce, h1, h2, h3, jsNullish_jarr]
    · simp [jsCoalesce, h1]
  · simp [resolveEntries, jobj, objOf, jsProp, lookupO, jsCoalesce, h]

/-- Claim C1 witness: the amended precedence evaluated on the counterexample
instruction and on an `entries`-bearing instruction. -/
theorem C1_witness :
    resolveEntries instrEntryFalse = entriesAmended instrEntryFalse
  ∧ resolveEntries (jobj [("entries", jarr [.num 1]), ("entry", .num 2),
      ("module", jobj [("items", jarr [.num 3])])]) = jarr [.num 1] :=
  ⟨(C1_amended instrEntryFalse).1,
   (C1_amended instrEntryFalse).2.2 (jarr [.num 1]) (.num 2)
     (jobj [("items", jarr [.num 3])]) rfl⟩

/-!
Claim C4.  The Dedup Store's guarded insert
`if (!tweets.has(tw.rest_id)) { tweets.set(tw.rest_id, flatten(tw)); added++ }`.
-/

/-- Claim C4: adding a record whose id is already stored is a complete no-op
(store, order and contents unchanged, counter unchanged — first write wins),
and adding a fresh id appends at the end, preserving insertion order. -/
theorem C4_dedup : ∀ (s : Store) (tw : JVal) (n : Nat),
    (storeHas s (jsProp tw "rest_id") = true → addTweet tw s n = .ok (s, n))
  ∧ (∀ r, storeHas s (jsProp tw "rest_id") = false → flatten tw = .ok r →
      addTweet tw s n = .ok (s ++ [(jsProp tw "rest_id", r)], n + 1)) := by
  intro s tw n
  constructor
  · intro h
    simp [addTweet, h]
  · intro r h hf
    simp only [addTweet, h, hf, Bool.false_eq_true, if_false]
    rfl

/-- A minimal record node. -/
def tinyTweet : JVal := jobj [("__typename", .str "Tweet"), ("rest_id", .str "1")]

/-- The flattening of `tinyTweet`. -/
def tinyRec : Rec :=
  { tweet_id := .str "1", created_at := .undefined, text := .undefined, lang := .undefined,
    favorite := .undefined, retweet := .undefined, reply := .undefined, quote := .undefined,
    favorite_count := .undefined, retweet_count := .undefined, reply_count := .undefined,
    quote_count := .undefined, user_handle := .undefined, parent_ids := [], raw := tinyTweet }

/-- Claim C4 witness: inserting `tinyTweet` into the empty store appends it;
re-adding it to a store already holding id "1" is a no-op. -/
theorem C4_witness :
    addTweet tinyTweet [] 0 = .ok ([(.str "1", tinyRec)], 1)
  ∧ addTweet tinyTweet [(.str "1", tinyRec)] 1 = .ok ([(.str "1", tinyRec)], 1) :=
  ⟨(C4_dedup [] tinyTweet 0).2 tinyRec rfl rfl,
   (C4_dedup [(.str "1", tinyRec)] tinyTweet 1).1 rfl⟩

/-!
Claim C9.  Destination resolution with an unresolved identity.  The source
returns `baseUrl` unchanged whenever no username is available
(`if (!username) return baseUrl`), *before* the per-scope switch is reached,
so the identity-independent bookmarks destination is not served when the
identity is unresolved.
-/

/-- An identity is available to `makeUrl` when one was already saved or the
current location's leading path segment is a non-reserved username. -/
def identityAvailable (baseUrl : String) (savedUsername : Option String) : Bool :=
  savedUsername.isSome ||
    (match extractedSegment baseUrl with
     | some e => !reservedSegments.contains e
     | none => false)

/-- Claim C9, counterexample: with no saved identity and a reserved leading
segment, resolving the bookmarks scope returns the base location unchanged,
not the fixed bookmarks path the claim promises. -/
theorem C9_counterexample :
    (makeUrl "bookmarks" "https://x.com/home" none).1 ≠ "https://x.com/i/bookmarks"
  ∧ (makeUrl "bookmarks" "https://x.com/home" none).1 = "https://x.com/home" := by
  exact ⟨by decide, rfl⟩

/-- Claim C9 (amended): the bookmarks scope resolves to its fixed destination
exactly when an identity is available (previously saved, or extractable from
the current location); with the identity unresolved every scope, bookmarks
included, falls back to the unchanged base location (the run continues, no
failure is raised). -/
theorem C9_amended : ∀ (baseUrl : String) (saved : Option String),
    (makeUrl "bookmarks" baseUrl saved).1 =
      if identityAvailable baseUrl saved then "https://x.com/i/bookmarks" else baseUrl := by
  intro baseUrl saved
  unfold makeUrl identityAvailable
  cases h : extractedSegment baseUrl with
  | none =>
    cases saved with
    | none => simp
    | some u => simp
  | some e =>
    cases saved with
    | none =>
      by_cases hr : e ∈ reservedSegments
      · simp [hr]
      · simp [hr]
    | some u =>
      by_cases hr : e ∈ reservedSegments
      · simp [hr]
      · simp [hr]

/-!
Claim C10.  Leaf entity resolution `(ent.content ?? ent.item)?.itemContent`:
when `content` is non-nullish the `item` branch of the coalescing is never
taken, so an entry whose `content` lacks `itemContent` never yields the
record sitting at `item.itemContent`; `item` is consulted only for a nullish
`content`.  The claim's "dropped as structural" is refuted, however: such an
entry is silently dropped only when its logging tag
(`ent.entryId || ent.content?.entryType || "unknown"`) supports `.includes`;
a truthy non-string tag (e.g. a numeric `entryId`) makes the non-Tweet
logging guard throw, aborting the call instead of dropping the entry.
-/

/-- The resolved `itemContent` of a (non-nullish) entry, as in the source. -/
def entIC (ent : JVal) : JVal :=
  jsOptProp (jsCoalesce (jsProp ent "content") (jsProp ent "item")) "itemContent"

/-- An entry matching the claim's own scenario — `content` present without
`itemContent`, a record under `item.itemContent` — whose numeric `entryId`
makes the logging guard throw. -/
def numericIdEntry : JVal :=
  jobj [("entryId", .num 5), ("content", jobj []),
        ("item", jobj [("itemContent", jobj [("tweet_results",
           jobj [("result", jobj [("__typename", .str "Tweet"),
                                  ("rest_id", .str "9")])])])])]

/-- Claim C10, counterexample: on `numericIdEntry` the per-entry step is not
a structural drop — the call aborts with the TypeError raised by
`entryType.includes` on the numeric tag. -/
theorem C10_counterexample :
    processEnt numericIdEntry [] 0 =
      .error "TypeError: entryType.includes is not a function"
  ∧ (processEnt numericIdEntry [] 0).isOk = false :=
  ⟨rfl, rfl⟩

/-- Claim C10 (amended): with `content` present (non-nullish) the resolution
reads `content.itemContent` only — rewritten as an expression never
mentioning `item`; `item.itemContent` is read only when `content` is
nullish.  A non-nullish `content` lacking `itemContent` never adds the
record under `item`: the per-entry step is a silent no-op (the entry dropped
as structural) when the entry's logging tag supports the `.includes` probe,
and otherwise aborts the call with a TypeError. -/
theorem C10_content_precedence : ∀ (ent : JVal) (s : Store) (n : Nat),
    (jsNullish (jsProp ent "content") = false →
      entIC ent = jsOptProp (jsProp ent "content") "itemContent")
  ∧ (jsNullish (jsProp ent "content") = true →
      entIC ent = jsOptProp (jsProp ent "item") "itemContent")
  ∧ (jsNullish ent = false →
     jsNullish (jsProp ent "content") = false →
     jsNullish (jsOptProp (jsProp ent "content") "itemContent") = true →
     includesOk (entryTypeOf ent) = true →
      processEnt ent s n = .ok (s, n))
  ∧ (jsNullish ent = false →
     jsNullish (jsProp ent "content") = false →
     jsNullish (jsOptProp (jsProp ent "content") "itemContent") = true →
     includesOk (entryTypeOf ent) = false →
      processEnt ent s n =
        .error "TypeError: entryType.includes is not a function") := by
  intro ent s n
  refine ⟨fun h => ?_, fun h => ?_, fun he hc hic hinc => ?_, fun he hc hic hinc => ?_⟩
  · simp [entIC, jsCoalesce, h]
  · simp [entIC, jsCoalesce, h]
  · have hbind : jsPropE ent "content" = .ok (jsProp ent "content") := by
      simp [jsPropE, he]
    have hcoal : jsCoalesce (jsProp ent "content") (jsProp ent "item") =
        jsProp ent "content" := jsCoalesce_of_not_nullish hc _
    simp only [processEnt, hbind, exceptBind_ok, hcoal, jsOptProp_of_nullish hic, hinc]
    rfl
  · have hbind : jsPropE ent "content" = .ok (jsProp ent "content") := by
      simp [jsPropE, he]
    have hcoal : jsCoalesce (jsProp ent "content") (jsProp ent "item") =
        jsProp ent "content" := jsCoalesce_of_not_nullish hc _
    simp only [processEnt, hbind, exceptBind_ok, hcoal, jsOptProp_of_nullish hic, hinc]
    rfl

/-- A wrapper-free entry whose `content` is present without `itemContent`
while `item.itemContent` holds a record node; its string `entryId` keeps the
logging guard happy. -/
def contentShadowEntry : JVal :=
  jobj [("entryId", .str "e1"),
        ("content", jobj [("entryType", .str "TimelineTimelineItem")]),
        ("item", jobj [("itemContent", jobj [("tweet_results",
           jobj [("result", jobj [("__typename", .str "Tweet"),
                                  ("rest_id", .str "9")])])])])]

/-- Claim C10 witness: on `contentShadowEntry` the per-entry step adds
nothing even though a record-typed node sits at `item.itemContent`, and on
`numericIdEntry` the abort branch of the amended claim fires. -/
theorem C10_witness :
    processEnt contentShadowEntry [] 0 = .ok ([], 0)
  ∧ processEnt numericIdEntry [] 0 =
      .error "TypeError: entryType.includes is not a function" :=
  ⟨(C10_content_precedence contentShadowEntry [] 0).2.2.1 rfl rfl rfl rfl,
   (C10_content_precedence numericIdEntry [] 0).2.2.2 rfl rfl rfl rfl⟩

/-!
Claim C2.  The Timeline Locator.  `containsContainer` is the spec-side
reachability predicate: some value in the graph is an object exposing an
`instructions` array.
-/

mutual
def containsContainer : JVal → Bool
  | .obj flds => isContainer (.obj flds) || containsContainerO flds
  | .arr xs => containsContainerA xs
  | _ => false

def containsContainerA : JArr → Bool
  | .nil => false
  | .cons v rest => containsContainer v || containsContainerA rest

def containsContainerO : JObj → Bool
  | .nil => false
  | .cons _ v rest => containsContainer v || containsContainerO rest
end

mutual
theorem extract_isSome : ∀ v, (extractTimeline v).isSome = containsContainer v
  | .undefined => rfl
  | .null => rfl
  | .bool _ => rfl
  | .num _ => rfl
  | .str _ => rfl
  | .obj flds => by
    by_cases h : isContainer (.obj flds)
    · simp [extractTimeline, containsContainer, h]
    · simp [extractTimeline, containsContainer, h, extractFields_isSome flds]
  | .arr xs => by
    simp [extractTimeline, containsContainer, extractElems_isSome xs]

theorem extractFields_isSome : ∀ o, (extractFields o).isSome = containsContainerO o
  | .nil => rfl
  | .cons k v rest => by
    have hv := extract_isSome v
    cases h : extractTimeline v with
    | some t =>
      rw [h] at hv
      simp [extractFields, containsContainerO, h, ← hv]
    | none =>
      rw [h] at hv
      simp [extractFields, containsContainerO, h, ← hv, extractFields_isSome rest]

theorem extractElems_isSome : ∀ a, (extractElems a).isSome = containsContainerA a
  | .nil => rfl
  | .cons v rest => by
    have hv := extract_isSome v
    cases h : extractTimeline v with
    | some t =>
      rw [h] at hv
      simp [extractElems, containsContainerA, h, ← hv]
    | none =>
      rw [h] at hv
      simp [extractElems, containsContainerA, h, ← hv, extractElems_isSome rest]
end

mutual
theorem extract_container : ∀ v t, extractTimeline v = some t → isContainer t = true
  | .undefined, t => by simp [extractTimeline]
  | .null, t => by simp [extractTimeline]
  | .bool _, t => by simp [extractTimeline]
  | .num _, t => by simp [extractTimeline]
  | .str _, t => by simp [extractTimeline]
  | .obj flds, t => by
    by_cases h : isContainer (.obj flds)
    · intro he
      simp [extractTimeline, h] at he
      rw [← he]
      exact h
    · intro he
      simp [extractTimeline, h] at he
      exact extractFields_container flds t he
  | .arr xs, t => by
    intro he
    simp [extractTimeline] at he
    exact extractElems_container xs t he

theorem extractFields_container : ∀ o t, extractFields o = some t → isContainer t = true
  | .nil, t => by simp [extractFields]
  | .cons k v rest, t => by
    intro he
    cases h : extractTimeline v with
    | some u =>
      rw [extractFields, h] at he
      cases he
      exact extract_container v t h
    | none =>
      rw [extractFields, h] at he
      exact extractFields_container rest t he

theorem extractElems_container : ∀ a t, extractElems a = some t → isContainer t = true
  | .nil, t => by simp [extractElems]
  | .cons v rest, t => by
    intro he
    cases h : extractTimeline v with
    | some u =>
      rw [extractElems, h] at he
      cases he
      exact extract_container v t h
    | none =>
      rw [extractElems, h] at he
      exact extractElems_container rest t he
end

/-- Claim C2: the Locator (i) finds a container exactly when one exists
anywhere in the payload (so it answers none exactly on container-free
payloads), (ii) returns the current object itself, immediately, whenever it
exposes an `instructions` array (in particular the outermost of nested
containers), (iii) only ever returns a container, and (iv)+(v) otherwise
recurses into the property values in enumeration order, committing to the
first non-empty result. -/
theorem C2_locator : ∀ v : JVal,
    ((extractTimeline v).isSome = containsContainer v)
  ∧ (isContainer v = true → extractTimeline v = some v)
  ∧ (∀ t, extractTimeline v = some t → isContainer t = true)
  ∧ (∀ flds, isContainer (JVal.obj flds) = false →
      extractTimeline (.obj flds) = extractFields flds)
  ∧ (∀ k w rest, extractFields (.cons k w rest) =
      (match extractTimeline w with | some t => some t | none => extractFields rest)) := by
  intro v
  refine ⟨extract_isSome v, ?_, fun t ht => extract_container v t ht,
    fun flds h => by simp [extractTimeline, h], fun k w rest => by rw [extractFields]⟩
  intro h
  match v, h with
  | .obj flds, h => simp [extractTimeline, h]

/-- A payload nesting a container that itself nests another container: the
outer one is returned. -/
def nestedContainers : JVal :=
  jobj [("data",
    jobj [("instructions", jarr [.num 1]),
          ("inner", jobj [("instructions", jarr [.num 2])])])]

/-- Claim C2 witness: the locator returns the outer container of
`nestedContainers` (found immediately once reached), and that result indeed
exposes an `instructions` array; a container-free payload yields none. -/
theorem C2_witness :
    extractTimeline nestedContainers =
      some (jobj [("instructions", jarr [.num 1]),
                  ("inner", jobj [("instructions", jarr [.num 2])])])
  ∧ isContainer (jobj [("instructions", jarr [.num 1]),
                  ("inner", jobj [("instructions", jarr [.num 2])])]) = true
  ∧ extractTimeline (jobj [("data", .str "x")]) = none := by
  refine ⟨rfl, ?_, ?_⟩
  · exact (C2_locator nestedContainers).2.2.1
      (jobj [("instructions", jarr [.num 1]),
             ("inner", jobj [("instructions", jarr [.num 2])])]) rfl
  · have h := (C2_locator (jobj [("data", .str "x")])).1
    cases he : extractTimeline (jobj [("data", .str "x")]) with
    | none => rfl
    | some t =>
      rw [he] at h
      simp at h
      exact absurd h (by decide)

/-!
Claim C8.  A malformed payload (`JSON.parse` throws) or a container-less one
is a soft per-call failure: a failure response, no store mutation, no phase
state mutation.
-/

/-- Claim C8: on an unparseable payload, and on any payload without a
timeline container, PROCESS_TIMELINE_DATA reports failure and returns the
scraper state (dedup store, saved username, current scope, scope queue)
exactly unchanged. -/
theorem C8_soft_failure : ∀ (fuel : Nat) (st : ScraperState),
    (processTimelineData fuel none st =
      ({ success := false, added := none, total := none,
         error := some "JSON.parse failed" }, st))
  ∧ (∀ page, extractTimeline page = none →
      processTimelineData fuel (some page) st =
        ({ success := false, added := none, total := none,
           error := some "No timeline found" }, st)) := by
  intro fuel st
  exact ⟨rfl, fun page h => by simp [processTimelineData, h]⟩

/-- A phase state mid-run, with a non-empty store and queue. -/
def midRunState : ScraperState :=
  { tweets := [(.str "1", tinyRec)], savedUsername := some "alice",
    currentScope := some "likes", scopeQueue := ["bookmarks"] }

/-- Claim C8 witness: both failure modes evaluated against `midRunState`. -/
theorem C8_witness :
    processTimelineData 5 none midRunState =
      ({ success := false, added := none, total := none,
         error := some "JSON.parse failed" }, midRunState)
  ∧ processTimelineData 5 (some (jobj [("data", jobj [("user", .null)])])) midRunState =
      ({ success := false, added := none, total := none,
         error := some "No timeline found" }, midRunState) :=
  ⟨(C8_soft_failure 5 midRunState).1,
   (C8_soft_failure 5 midRunState).2 (jobj [("data", jobj [("user", .null)])]) rfl⟩

/-!
Named pieces of `flatten`, used to state the flattener claims.
-/

/-- `tweet.legacy ?? {}`. -/
def legacyOf (tweet : JVal) : JVal := jsCoalesce (jsProp tweet "legacy") (jobj [])

/-- `tweet?.core?.user_results?.result?.legacy ?? {}`. -/
def userLegacyOf (tweet : JVal) : JVal :=
  jsCoalesce
    (jsOptProp (jsOptProp (jsOptProp (jsOptProp tweet "core") "user_results") "result") "legacy")
    (jobj [])

/-- `tweet?.quoted_status_result?.result`. -/
def quotedOf (tweet : JVal) : JVal :=
  jsOptProp (jsOptProp tweet "quoted_status_result") "result"

/-- `tweet?.retweeted_status_result?.result`. -/
def retweetedOf (tweet : JVal) : JVal :=
  jsOptProp (jsOptProp tweet "retweeted_status_result") "result"

/-- The `parent_ids` expression of `flatten`, given the mapped
referenced-tweet ids. -/
def parentsOf (tweet : JVal) (refIds : List JVal) : List JVal :=
  (refIds ++
    [jsProp (legacyOf tweet) "in_reply_to_status_id_str",
     jsProp (legacyOf tweet) "quoted_status_id_str",
     jsOptProp (quotedOf tweet) "rest_id"] ++
    (if jsTruthy (jsOptProp (retweetedOf tweet) "rest_id")
     then [jsProp (retweetedOf tweet) "rest_id"] else [])).filter
    (fun v => jsTruthy v)

/-- The record `flatten` builds, given the mapped referenced-tweet ids. -/
def mkFlat (tweet : JVal) (refIds : List JVal) : Rec :=
  { tweet_id := jsProp tweet "rest_id"
    created_at := jsProp (legacyOf tweet) "created_at"
    text := jsOr (jsProp (legacyOf tweet) "full_text") (jsProp (legacyOf tweet) "text")
    lang := jsProp (legacyOf tweet) "lang"
    favorite := jsProp (legacyOf tweet) "favorite_count"
    retweet := jsProp (legacyOf tweet) "retweet_count"
    reply := jsProp (legacyOf tweet) "reply_count"
    quote := jsProp (legacyOf tweet) "quote_count"
    favorite_count := jsProp (legacyOf tweet) "favorite_count"
    retweet_count := jsProp (legacyOf tweet) "retweet_count"
    reply_count := jsProp (legacyOf tweet) "reply_count"
    quote_count := jsProp (legacyOf tweet) "quote_count"
    user_handle := jsProp (userLegacyOf tweet) "screen_name"
    parent_ids := parentsOf tweet refIds
    raw := tweet }

theorem flatten_of_nullish {tweet : JVal} (h : jsNullish tweet = true) :
    flatten tweet = .error "TypeError: cannot read legacy of nullish" := by
  unfold flatten
  simp [jsPropE, h]
  rfl

theorem flatten_nonnull {tweet : JVal} (h : jsNullish tweet = false) :
    flatten tweet =
      mapIdStr (jsCoalesce (jsProp (legacyOf tweet) "referenced_tweets") (jarr [])) >>=
        fun refIds => pure (mkFlat tweet refIds) := by
  have hb : jsPropE tweet "legacy" = .ok (jsProp tweet "legacy") := by
    simp [jsPropE, h]
  unfold flatten
  rw [hb, exceptBind_ok]
  rfl

theorem mapM_idStr_ok_of : ∀ l : List JVal, (∀ r ∈ l, jsNullish r = false) →
    mapIdStrL l = .ok (l.map (fun r => jsProp r "id_str")) := by
  intro l
  induction l with
  | nil => intro _; rfl
  | cons r rest ih =>
    intro h
    have hr : jsPropE r "id_str" = .ok (jsProp r "id_str") := by
      simp [jsPropE, h r (by simp)]
    have hrest := ih (fun x hx => h x (by simp [hx]))
    rw [mapIdStrL, hr, exceptBind_ok, hrest, exceptBind_ok]
    rfl

theorem mapM_idStr_ok_inv : ∀ (l : List JVal) (ids : List JVal),
    mapIdStrL l = .ok ids →
    ids = l.map (fun r => jsProp r "id_str") := by
  intro l
  induction l with
  | nil =>
    intro ids h
    have h' : (Except.ok [] : Except String (List JVal)) = .ok ids := h
    cases h'
    rfl
  | cons r rest ih =>
    intro ids h
    rw [mapIdStrL] at h
    cases he : jsPropE r "id_str" with
    | error e => rw [he] at h; exact absurd h (by simp [exceptBind_error])
    | ok a =>
      rw [he, exceptBind_ok] at h
      cases hrest : mapIdStrL rest with
      | error e => rw [hrest] at h; exact absurd h (by simp [exceptBind_error])
      | ok ids' =>
        rw [hrest, exceptBind_ok] at h
        have hids : ids = a :: ids' := by
          have h' : (Except.ok (a :: ids') : Except String (List JVal)) = .ok ids := h
          cases h'; rfl
        have ha : a = jsProp r "id_str" := by
          by_cases hn : jsNullish r
          · simp [jsPropE, hn] at he
          · simp [jsPropE, hn] at he; exact he.symm
        rw [hids, ha, ih ids' hrest]
        rfl

/-- The referenced-tweet ids contributed to `parent_ids`, read off the raw
node. -/
def refIdsOf (tweet : JVal) : List JVal :=
  match jsCoalesce (jsProp (legacyOf tweet) "referenced_tweets") (jarr []) with
  | .arr xs => (elemsA xs).map (fun r => jsProp r "id_str")
  | _ => []

theorem mapIdStr_ok_arr {v : JVal} {ids : List JVal} (h : mapIdStr v = .ok ids) :
    ∃ xs, v = .arr xs ∧ ids = (elemsA xs).map (fun r => jsProp r "id_str") := by
  cases v with
  | arr xs => exact ⟨xs, rfl, mapM_idStr_ok_inv (elemsA xs) ids h⟩

  | undefined => exact absurd h (by simp [mapIdStr])
  | null => exact absurd h (by simp [mapIdStr])
  | bool b => exact absurd h (by simp [mapIdStr])
  | num n => exact absurd h (by simp [mapIdStr])
  | str s => exact absurd h (by simp [mapIdStr])
  | obj o => exact absurd h (by simp [mapIdStr])

theorem jsOptProp_eq_jsProp {v : JVal} (h : jsNullish v = false) (f : String) :
    jsOptProp v f = jsProp v f := by
  simp [jsOptProp, h]

/-!
Claim C7.  `flatten` never filters the record's own id out of `parent_ids`:
the only filter applied is truthiness.  A node whose reply-to id equals its
own `rest_id` therefore lists itself among its relationship ids, refuting the
claimed invariant; what does hold is that every relationship id is a truthy
value drawn from the five reference sources.
-/

/-- A node that (per its raw data) replies to itself. -/
def selfRefTweet : JVal :=
  jobj [("rest_id", .str "1"),
        ("legacy", jobj [("in_reply_to_status_id_str", .str "1")])]

/-- What `flatten` produces on `selfRefTweet`. -/
def selfRec : Rec :=
  { tweet_id := .str "1", created_at := .undefined, text := .undefined, lang := .undefined,
    favorite := .undefined, retweet := .undefined, reply := .undefined, quote := .undefined,
    favorite_count := .undefined, retweet_count := .undefined, reply_count := .undefined,
    quote_count := .undefined, user_handle := .undefined, parent_ids := [.str "1"],
    raw := selfRefTweet }

/-- Claim C7, counterexample: flattening `selfRefTweet` yields a record whose
`parent_ids` contains the record's own id. -/
theorem C7_counterexample :
    flatten selfRefTweet = .ok selfRec ∧ selfRec.tweet_id ∈ selfRec.parent_ids :=
  ⟨rfl, by simp [selfRec]⟩

/-- Claim C7 (amended): every element of a flattened record's
`relationship_ids` is truthy and comes from one of the five reference
sources of the raw node (a referenced-tweet id, the reply-to id, the
quoted-status id, the nested quoted node's id, the retweeted original's id);
`flatten` performs no self-id filtering, so the record's own id appears
exactly when one of those sources equals it. -/
theorem C7_amended : ∀ (tweet : JVal) (r : Rec), flatten tweet = .ok r →
    ∀ x ∈ r.parent_ids, jsTruthy x = true ∧
      (x ∈ refIdsOf tweet ∨
       x = jsProp (legacyOf tweet) "in_reply_to_status_id_str" ∨
       x = jsProp (legacyOf tweet) "quoted_status_id_str" ∨
       x = jsOptProp (quotedOf tweet) "rest_id" ∨
       x = jsOptProp (retweetedOf tweet) "rest_id") := by
  intro tweet r h x hx
  have hnn : jsNullish tweet = false := by
    cases hc : jsNullish tweet with
    | false => rfl
    | true =>
      rw [flatten_of_nullish hc] at h
      exact absurd h (by simp)
  rw [flatten_nonnull hnn] at h
  cases hm : mapIdStr (jsCoalesce (jsProp (legacyOf tweet) "referenced_tweets") (jarr [])) with
  | error e => rw [hm] at h; exact absurd h (by simp [exceptBind_error])
  | ok ids =>
    rw [hm, exceptBind_ok] at h
    have hr : r = mkFlat tweet ids := by
      have h' : (Except.ok (mkFlat tweet ids) : Except String Rec) = .ok r := h
      cases h'; rfl
    obtain ⟨xs, hv, hxs⟩ := mapIdStr_ok_arr hm
    have hids : refIdsOf tweet = ids := by
      unfold refIdsOf
      rw [hv, hxs]
    subst hr
    have hx' : x ∈ parentsOf tweet ids := hx
    rw [← hids] at hx'
    unfold parentsOf at hx'
    rw [List.mem_filter] at hx'
    obtain ⟨hmem, htr⟩ := hx'
    refine ⟨htr, ?_⟩
    rw [List.mem_append] at hmem
    cases hmem with
    | inl hmem1 =>
      rw [List.mem_append] at hmem1
      cases hmem1 with
      | inl hA => exact Or.inl hA
      | inr hB =>
        simp only [List.mem_cons, List.mem_singleton] at hB
        rcases hB with h1 | h2 | h3 | h4
        · exact Or.inr (Or.inl h1)
        · exact Or.inr (Or.inr (Or.inl h2))
        · exact Or.inr (Or.inr (Or.inr (Or.inl h3)))
        · cases h4
    | inr hE =>
      by_cases hg : jsTruthy (jsOptProp (retweetedOf tweet) "rest_id")
      · rw [if_pos hg] at hE
        simp only [List.mem_singleton] at hE
        have hrnn : jsNullish (retweetedOf tweet) = false := by
          cases hc : jsNullish (retweetedOf tweet) with
          | false => rfl
          | true =>
            rw [jsOptProp_of_nullish hc] at hg
            exact absurd hg (by simp [jsTruthy])
        rw [jsOptProp_eq_jsProp hrnn] at hg ⊢
        exact Or.inr (Or.inr (Or.inr (Or.inr hE)))
      · rw [if_neg hg] at hE
        cases hE

/-- A node replying to a different record. -/
def replyTweet : JVal :=
  jobj [("rest_id", .str "5"),
        ("legacy", jobj [("in_reply_to_status_id_str", .str "3")])]

/-- What `flatten` produces on `replyTweet`. -/
def replyRec : Rec :=
  { tweet_id := .str "5", created_at := .undefined, text := .undefined, lang := .undefined,
    favorite := .undefined, retweet := .undefined, reply := .undefined, quote := .undefined,
    favorite_count := .undefined, retweet_count := .undefined, reply_count := .undefined,
    quote_count := .undefined, user_handle := .undefined, parent_ids := [.str "3"],
    raw := replyTweet }

/-- Claim C7 witness: on `replyTweet` the single relationship id "3" is
truthy and identified as the reply-to id. -/
theorem C7_witness :
    jsTruthy (.str "3") = true ∧
      ((.str "3") ∈ refIdsOf replyTweet ∨
       (.str "3") = jsProp (legacyOf replyTweet) "in_reply_to_status_id_str" ∨
       (.str "3") = jsProp (legacyOf replyTweet) "quoted_status_id_str" ∨
       (.str "3") = jsOptProp (quotedOf replyTweet) "rest_id" ∨
       (.str "3") = jsOptProp (retweetedOf replyTweet) "rest_id") :=
  C7_amended replyTweet replyRec rfl (.str "3") (by simp [replyRec])

/-!
Claim C6.  Totality of `flatten`.  Missing optional fields never make it
fail (the empty node flattens to an all-default record with no relationship
ids), but totality on *every* record node is refuted: a present, non-null,
non-array `legacy.referenced_tweets` makes the `.map` call throw.
-/

/-- A record node whose `referenced_tweets` is present but not an array. -/
def badRefTweet : JVal :=
  jobj [("__typename", .str "Tweet"), ("rest_id", .str "1"),
        ("legacy", jobj [("referenced_tweets", .num 7)])]

/-- Claim C6, counterexample: `flatten` fails on the record node
`badRefTweet`, so it is not total on every EntityNode. -/
theorem C6_counterexample :
    flatten badRefTweet = .error "TypeError: map is not a function" ∧
    (flatten badRefTweet).isOk = false :=
  ⟨rfl, rfl⟩

/-- Guard for the only field whose shape `flatten` relies on:
`legacy.referenced_tweets` is absent/null, or an array of non-nullish
entries. -/
def refTweetsOk (tweet : JVal) : Bool :=
  jsNullish (jsProp (legacyOf tweet) "referenced_tweets") ||
    (match jsProp (legacyOf tweet) "referenced_tweets" with
     | .arr xs => (elemsA xs).all (fun r => !jsNullish r)
     | _ => false)

/-- The record `flatten` produces on a node with no optional fields. -/
def emptyNodeRec : Rec :=
  { tweet_id := .undefined, created_at := .undefined, text := .undefined, lang := .undefined,
    favorite := .undefined, retweet := .undefined, reply := .undefined, quote := .undefined,
    favorite_count := .undefined, retweet_count := .undefined, reply_count := .undefined,
    quote_count := .undefined, user_handle := .undefined, parent_ids := [],
    raw := jobj [] }

/-- Claim C6 (amended): `flatten` never fails on missing optional fields —
it succeeds on every non-nullish node whose `legacy.referenced_tweets`,
when present and non-null, is an array of non-nullish entries — and on the
node with no optional fields it returns default/empty values and an empty
relationship-id sequence. -/
theorem C6_amended : ∀ tweet : JVal,
    (jsNullish tweet = false → refTweetsOk tweet = true → (flatten tweet).isOk = true)
  ∧ flatten (jobj []) = .ok emptyNodeRec
  ∧ emptyNodeRec.parent_ids = [] := by
  intro tweet
  refine ⟨fun h hok => ?_, rfl, rfl⟩
  rw [flatten_nonnull h]
  by_cases hn : jsNullish (jsProp (legacyOf tweet) "referenced_tweets") = true
  · rw [jsCoalesce_of_nullish hn]
    rfl
  · have hn' : jsNullish (jsProp (legacyOf tweet) "referenced_tweets") = false := by
      simpa using hn
    rw [jsCoalesce_of_not_nullish hn']
    unfold refTweetsOk at hok
    rw [hn'] at hok
    simp only [Bool.false_or] at hok
    cases hrt : jsProp (legacyOf tweet) "referenced_tweets" with
    | arr xs =>
      rw [hrt] at hok
      have hall : ∀ r ∈ elemsA xs, jsNullish r = false := by
        intro r hr
        have := List.all_eq_true.mp hok r hr
        simpa using this
      rw [show mapIdStr (.arr xs) = mapIdStrL (elemsA xs) from rfl,
          mapM_idStr_ok_of (elemsA xs) hall]
      rfl
    | undefined => rw [hrt] at hn'; exact absurd hn' (by simp [jsNullish])
    | null => rw [hrt] at hn'; exact absurd hn' (by simp [jsNullish])
    | bool b => rw [hrt] at hok; exact absurd hok (by simp)
    | num n => rw [hrt] at hok; exact absurd hok (by simp)
    | str s => rw [hrt] at hok; exact absurd hok (by simp)
    | obj o => rw [hrt] at hok; exact absurd hok (by simp)

/-- A node carrying one well-formed referenced tweet. -/
def okRefTweet : JVal :=
  jobj [("rest_id", .str "5"),
        ("legacy", jobj [("referenced_tweets", jarr [jobj [("id_str", .str "7")]])])]

/-- Claim C6 witness: `flatten` succeeds on `okRefTweet`. -/
theorem C6_witness : (flatten okRefTweet).isOk = true :=
  (C6_amended okRefTweet).1 rfl rfl

/-!
Claim C5.  A `TimelineClearCache` instruction anywhere in the list empties
the store immediately, contributes no entities, and later instructions of
the same payload run against the emptied store.
-/

theorem runInstrs_append : ∀ (pre post : List JVal) (fuel : Nat) (s : Store) (n : Nat),
    runInstrs fuel (pre ++ post) s n =
      (match runInstrs fuel pre s n with
       | (s1, n1, .done) => runInstrs fuel post s1 n1
       | r => r) := by
  intro pre post fuel
  induction pre with
  | nil => intro s n; rfl
  | cons instr rest ih =>
    intro s n
    rw [List.cons_append]
    cases hty : jsPropE instr "type" with
    | error e => simp [runInstrs, hty]
    | ok ty =>
      by_cases hclear : jeq ty (.str "TimelineClearCache") = true
      · simp only [runInstrs, hty, hclear, if_true]
        exact ih [] n
      · by_cases hrec : isRecognized ty = true
        · simp only [runInstrs, hty, hclear, hrec, Bool.not_true, if_false,
            Bool.false_eq_true, Bool.true_eq_false]
          cases hsp : spreadElems (resolveEntries instr) with
          | error e => rfl
          | ok root =>
            cases hq : runQueue fuel root s n with
            | mk s' p =>
              cases p with
              | mk n' st =>
                cases st with
                | done =>
                  simp only [hq]
                  exact ih s' n'
                | failed e => simp only [hq]
                | fuelOut => simp only [hq]
        · simp only [runInstrs, hty, hclear, hrec, Bool.not_false, if_false, if_true,
            Bool.false_eq_true, Bool.true_eq_false]
          exact ih s n

/-- Claim C5: processing a list containing a ClearCache instruction at any
position runs the prefix normally, then empties the store (keeping the
`added` counter — the clear instruction itself yields no entities), then
runs the remaining instructions against the emptied store, whose record
entities are therefore still added afterward. -/
theorem C5_clear_cache : ∀ (pre post : List JVal) (c : JVal) (fuel : Nat) (s : Store) (n : Nat),
    jsPropE c "type" = .ok (.str "TimelineClearCache") →
    runInstrs fuel (pre ++ c :: post) s n =
      (match runInstrs fuel pre s n with
       | (_s1, n1, .done) => runInstrs fuel post ([] : Store) n1
       | r => r) := by
  intro pre post c fuel s n hc
  rw [runInstrs_append pre (c :: post) fuel s n]
  have hstep : ∀ (s1 : Store) (n1 : Nat),
      runInstrs fuel (c :: post) s1 n1 = runInstrs fuel post [] n1 := by
    intro s1 n1
    simp only [runInstrs, hc]
    rw [if_pos (by rfl : jeq (.str "TimelineClearCache") (.str "TimelineClearCache") = true)]
  cases hpre : runInstrs fuel pre s n with
  | mk s1 p =>
    cases p with
    | mk n1 st =>
      cases st with
      | done => exact hstep s1 n1
      | failed e => rfl
      | fuelOut => rfl

/-- A record node with the given id. -/
def tweetNodeOf (id : String) : JVal :=
  jobj [("__typename", .str "Tweet"), ("rest_id", .str id)]

/-- A leaf entry resolving to a record with the given id. -/
def entryOf (id : String) : JVal :=
  jobj [("content", jobj [("itemContent", jobj [("tweet_results",
    jobj [("result", tweetNodeOf id)])])])]

/-- An AddEntries instruction carrying one record entry. -/
def addInstrOf (id : String) : JVal :=
  jobj [("type", .str "TimelineAddEntries"), ("entries", jarr [entryOf id])]

/-- The ClearCache instruction. -/
def clearInstr : JVal := jobj [("type", .str "TimelineClearCache")]

/-- Claim C5 witness: add "1", clear, add "2".  The equation of the claim
theorem holds at this input, and evaluating shows the final store holds a
single record (the post-clear one) while two entities were added in total. -/
theorem C5_witness :
    runInstrs 5 ([addInstrOf "1"] ++ clearInstr :: [addInstrOf "2"]) [] 0 =
      (match runInstrs 5 [addInstrOf "1"] ([] : Store) 0 with
       | (_s1, n1, .done) => runInstrs 5 [addInstrOf "2"] ([] : Store) n1
       | r => r)
  ∧ (runInstrs 5 ([addInstrOf "1"] ++ clearInstr :: [addInstrOf "2"]) [] 0).1.length = 1
  ∧ (runInstrs 5 ([addInstrOf "1"] ++ clearInstr :: [addInstrOf "2"]) [] 0).2.1 = 2 :=
  ⟨C5_clear_cache [addInstrOf "1"] [addInstrOf "2"] clearInstr 5 [] 0 rfl, rfl, rfl⟩

/-!
Claim C3.  The breadth-first work-queue walk.  Spec side: `bfsRecs` lists the
record entities level by level (each level's records in entry order, wrapper
children forming the next level), which is exactly the dequeue (encounter)
order of a FIFO queue that enqueues children at the back.  The claim theorem
shows the source walk terminates (status `.done`) for any fuel above the
payload size and its entire store/counter effect is the one-by-one fold of
that list — every leaf record entity handed to the store exactly once, in
encounter order.
-/

/-- The wrapper probe of the walk, in source order: `ent?.content?.items`
with truthy `?.length`, else `ent?.item?.items` with truthy `?.length`. -/
def wrapChildren (ent : JVal) : Option JVal :=
  if jsTruthy (jsOptLen (contentItems ent)) then some (contentItems ent)
  else if jsTruthy (jsOptLen (itemItems ent)) then some (itemItems ent)
  else none

/-- The child entries a wrapper contributes to the queue. -/
def childrenOf (ent : JVal) : List JVal :=
  match wrapChildren ent with
  | some (.arr xs) => elemsA xs
  | _ => []

/-- The candidate tweet node of a leaf entry:
`itemContent?.tweet_results?.result`. -/
def entTw (ent : JVal) : JVal :=
  jsOptProp (jsOptProp (entIC ent) "tweet_results") "result"

/-- The record EntityNode a non-wrapper entry resolves to, if any. -/
def entRecord (ent : JVal) : Option JVal :=
  match wrapChildren ent with
  | some _ => none
  | none =>
    if jeq (jsOptProp (entTw ent) "__typename") (.str "Tweet") then some (entTw ent)
    else none

/-- Records of one queue level, in entry order. -/
def levelRecs : List JVal → List JVal
  | [] => []
  | e :: q => (entRecord e).toList ++ levelRecs q

/-- The next queue level: children of this level's wrappers, in order. -/
def childrenAll : List JVal → List JVal
  | [] => []
  | e :: q => childrenOf e ++ childrenAll q

/-- All record entities, level by level — the BFS encounter order. -/
def bfsRecs : Nat → List JVal → List JVal
  | 0, _ => []
  | _, [] => []
  | f + 1, q => levelRecs q ++ bfsRecs f (childrenAll q)

/-- Folding a record sequence into the store through the guarded insert. -/
def foldTweets : List JVal → Store → Nat → Except String (Store × Nat)
  | [], s, n => .ok (s, n)
  | tw :: rest, s, n =>
    match addTweet tw s n with
    | .error e => .error e
    | .ok (s', n') => foldTweets rest s' n'

/-- Well-formedness of an entry tree to depth `d`: entries are non-nullish,
wrapper items are arrays of well-formed entries, a resolved record flattens
without error, and a structural (record-less) entry carries a logging tag
the non-Tweet guard can probe with `.includes`. -/
def entOk : Nat → JVal → Bool
  | 0, _ => false
  | d + 1, ent =>
    !jsNullish ent &&
    (match wrapChildren ent with
     | some items =>
       (match items with
        | .arr xs => (elemsA xs).all (entOk d)
        | _ => false)
     | none =>
       (match entRecord ent with
        | some tw => (flatten tw).isOk
        | none => includesOk (entryTypeOf ent)))

/-- Well-formedness of a whole queue. -/
def entsOk (d : Nat) (q : List JVal) : Bool := q.all (entOk d)

theorem sizeJ_pos : ∀ v : JVal, 1 ≤ sizeJ v := by
  intro v
  cases v <;> simp [sizeJ]

theorem sizeQ_nil : sizeQ [] = 0 := rfl

theorem sizeQ_cons (e : JVal) (q : List JVal) : sizeQ (e :: q) = sizeJ e + sizeQ q := by
  simp [sizeQ]

theorem sizeQ_append (a b : List JVal) : sizeQ (a ++ b) = sizeQ a + sizeQ b := by
  simp [sizeQ]

theorem length_le_sizeQ : ∀ q : List JVal, q.length ≤ sizeQ q := by
  intro q
  induction q with
  | nil => simp [sizeQ]
  | cons e q ih =>
    rw [sizeQ_cons, List.length_cons]
    have := sizeJ_pos e
    omega

theorem lookupO_size : ∀ (flds : JObj) (f : String) (v : JVal),
    lookupO flds f = some v → sizeJ v ≤ sizeO flds
  | .nil, f, v => by
    intro h
    exact absurd h (by simp [lookupO])
  | .cons k w rest, f, v => by
    intro h
    rw [lookupO] at h
    by_cases hk : k = f
    · rw [if_pos hk] at h
      cases h
      rw [show sizeO (.cons k w rest) = sizeJ w + sizeO rest from rfl]
      omega
    · rw [if_neg hk] at h
      have h2 := lookupO_size rest f v h
      rw [show sizeO (.cons k w rest) = sizeJ w + sizeO rest from rfl]
      omega

theorem jsProp_size (v : JVal) (f : String) : sizeJ (jsProp v f) ≤ sizeJ v := by
  cases v with
  | obj flds =>
    rw [show jsProp (.obj flds) f = (lookupO flds f).getD .undefined from rfl]
    rw [show sizeJ (JVal.obj flds) = sizeO flds + 1 from rfl]
    cases hl : lookupO flds f with
    | none =>
      rw [Option.getD_none]
      rw [show sizeJ JVal.undefined = 1 from rfl]
      omega
    | some w =>
      rw [Option.getD_some]
      have h2 := lookupO_size flds f w hl
      omega
  | undefined => exact le_refl _
  | null => exact le_refl _
  | bool b => exact le_refl _
  | num n => exact le_refl _
  | str s => exact le_refl _
  | arr xs => simp [jsProp, sizeJ]

theorem jsOptProp_size (v : JVal) (f : String) : sizeJ (jsOptProp v f) ≤ sizeJ v := by
  unfold jsOptProp
  by_cases h : jsNullish v
  · rw [if_pos h]
    exact le_trans (le_refl 1) (sizeJ_pos v)
  · rw [if_neg h]
    exact jsProp_size v f

theorem contentItems_size (ent : JVal) : sizeJ (contentItems ent) ≤ sizeJ ent :=
  le_trans (jsOptProp_size _ _) (jsOptProp_size _ _)

theorem itemItems_size (ent : JVal) : sizeJ (itemItems ent) ≤ sizeJ ent :=
  le_trans (jsOptProp_size _ _) (jsOptProp_size _ _)

theorem wrapChildren_size {ent items : JVal} (h : wrapChildren ent = some items) :
    sizeJ items ≤ sizeJ ent := by
  unfold wrapChildren at h
  by_cases h1 : jsTruthy (jsOptLen (contentItems ent)) = true
  · rw [if_pos h1] at h
    cases h
    exact contentItems_size ent
  · rw [if_neg h1] at h
    by_cases h2 : jsTruthy (jsOptLen (itemItems ent)) = true
    · rw [if_pos h2] at h
      cases h
      exact itemItems_size ent
    · rw [if_neg h2] at h
      exact absurd h (by simp)

theorem sizeQ_elemsA : ∀ xs : JArr, sizeQ (elemsA xs) = sizeA xs
  | .nil => rfl
  | .cons v rest => by rw [elemsA, sizeQ_cons, sizeQ_elemsA rest, sizeA]

theorem childrenOf_size (e : JVal) : sizeQ (childrenOf e) + 1 ≤ sizeJ e := by
  unfold childrenOf
  cases hw : wrapChildren e with
  | none => simpa using sizeJ_pos e
  | some items =>
    have hs := wrapChildren_size hw
    cases items with
    | arr xs =>
      rw [sizeQ_elemsA]
      simp only [sizeJ] at hs
      omega
    | undefined => simpa using sizeJ_pos e
    | null => simpa using sizeJ_pos e
    | bool b => simpa using sizeJ_pos e
    | num n => simpa using sizeJ_pos e
    | str s => simpa using sizeJ_pos e
    | obj o => simpa using sizeJ_pos e

theorem childrenAll_size : ∀ q : List JVal, sizeQ (childrenAll q) + q.length ≤ sizeQ q := by
  intro q
  induction q with
  | nil => simp [childrenAll, sizeQ]
  | cons e q ih =>
    rw [childrenAll, sizeQ_append, sizeQ_cons, List.length_cons]
    have := childrenOf_size e
    omega

theorem entOk_nonnull {d : Nat} {ent : JVal} (h : entOk (d + 1) ent = true) :
    jsNullish ent = false := by
  rw [entOk, Bool.and_eq_true] at h
  have h1 := h.1
  revert h1
  cases jsNullish ent <;> simp

theorem childrenOf_of_arr {ent items : JVal} {xs : JArr}
    (hw : wrapChildren ent = some items) (ha : items = .arr xs) :
    childrenOf ent = elemsA xs := by
  unfold childrenOf
  rw [hw, ha]

theorem entOk_wrap {d : Nat} {ent items : JVal} (h : entOk (d + 1) ent = true)
    (hw : wrapChildren ent = some items) :
    spreadElems items = .ok (childrenOf ent) ∧ entsOk d (childrenOf ent) = true := by
  rw [entOk, Bool.and_eq_true] at h
  have h2 := h.2
  rw [hw] at h2
  cases items with
  | arr xs =>
    rw [childrenOf_of_arr hw rfl]
    exact ⟨rfl, h2⟩
  | undefined => exact absurd h2 (by simp)
  | null => exact absurd h2 (by simp)
  | bool b => exact absurd h2 (by simp)
  | num i => exact absurd h2 (by simp)
  | str t => exact absurd h2 (by simp)
  | obj o => exact absurd h2 (by simp)

theorem entOk_leaf {d : Nat} {ent tw : JVal} (h : entOk (d + 1) ent = true)
    (hw : wrapChildren ent = none) (hr : entRecord ent = some tw) :
    (flatten tw).isOk = true := by
  rw [entOk, Bool.and_eq_true] at h
  have h2 := h.2
  rw [hw, hr] at h2
  exact h2

theorem entOk_structural {d : Nat} {ent : JVal} (h : entOk (d + 1) ent = true)
    (hw : wrapChildren ent = none) (hr : entRecord ent = none) :
    includesOk (entryTypeOf ent) = true := by
  rw [entOk, Bool.and_eq_true] at h
  have h2 := h.2
  rw [hw, hr] at h2
  exact h2

theorem entsOk_cons {d : Nat} {e : JVal} {q : List JVal} :
    entsOk d (e :: q) = true ↔ (entOk d e = true ∧ entsOk d q = true) := by
  simp [entsOk, List.all_cons, Bool.and_eq_true]

theorem entsOk_append {d : Nat} {a b : List JVal} :
    entsOk d (a ++ b) = true ↔ (entsOk d a = true ∧ entsOk d b = true) := by
  simp [entsOk, List.all_append, Bool.and_eq_true]

theorem entsOk_children {d : Nat} : ∀ q : List JVal,
    entsOk (d + 1) q = true → entsOk d (childrenAll q) = true := by
  intro q
  induction q with
  | nil => intro _; rfl
  | cons e q ih =>
    intro h
    rw [entsOk_cons] at h
    rw [childrenAll]
    refine entsOk_append.mpr ⟨?_, ih h.2⟩
    cases hw : wrapChildren e with
    | none =>
      rw [show childrenOf e = [] from by unfold childrenOf; rw [hw]]
      rfl
    | some items => exact (entOk_wrap h.1 hw).2

theorem addTweet_ok {tw : JVal} (s : Store) (n : Nat) (h : (flatten tw).isOk = true) :
    ∃ s2 n2, addTweet tw s n = .ok (s2, n2) := by
  unfold addTweet
  by_cases hh : storeHas s (jsProp tw "rest_id") = true
  · rw [if_pos hh]
    exact ⟨s, n, rfl⟩
  · rw [if_neg hh]
    cases hfl : flatten tw with
    | error e => rw [hfl] at h; exact absurd h (by simp [Except.isOk, Except.toBool])
    | ok r => exact ⟨s ++ [(jsProp tw "rest_id", r)], n + 1, rfl⟩

theorem runQueue_wrapStep {ent items : JVal} {q : List JVal} {s : Store} {n fuel : Nat}
    (hw : wrapChildren ent = some items) :
    runQueue (fuel + 1) (ent :: q) s n =
      (match spreadElems items with
       | .error e => (s, n, .failed e)
       | .ok xs => runQueue fuel (q ++ xs) s n) := by
  unfold wrapChildren at hw
  by_cases h1 : jsTruthy (jsOptLen (contentItems ent)) = true
  · rw [if_pos h1] at hw
    cases hw
    simp only [runQueue, h1, if_true]
  · rw [if_neg h1] at hw
    by_cases h2 : jsTruthy (jsOptLen (itemItems ent)) = true
    · rw [if_pos h2] at hw
      cases hw
      have h1' : jsTruthy (jsOptLen (contentItems ent)) = false := by
        revert h1; cases jsTruthy (jsOptLen (contentItems ent)) <;> simp
      simp only [runQueue, h1', Bool.false_eq_true, if_false, h2, if_true]
    · rw [if_neg h2] at hw
      exact absurd hw (by simp)

theorem runQueue_leafStep {ent : JVal} {q : List JVal} {s : Store} {n fuel : Nat}
    (hw : wrapChildren ent = none) :
    runQueue (fuel + 1) (ent :: q) s n =
      (match processEnt ent s n with
       | .error e => (s, n, .failed e)
       | .ok (s', n') => runQueue fuel q s' n') := by
  unfold wrapChildren at hw
  by_cases h1 : jsTruthy (jsOptLen (contentItems ent)) = true
  · rw [if_pos h1] at hw
    exact absurd hw (by simp)
  · rw [if_neg h1] at hw
    by_cases h2 : jsTruthy (jsOptLen (itemItems ent)) = true
    · rw [if_pos h2] at hw
      exact absurd hw (by simp)
    · have h1' : jsTruthy (jsOptLen (contentItems ent)) = false := by
        revert h1; cases jsTruthy (jsOptLen (contentItems ent)) <;> simp
      have h2' : jsTruthy (jsOptLen (itemItems ent)) = false := by
        revert h2; cases jsTruthy (jsOptLen (itemItems ent)) <;> simp
      simp only [runQueue, h1', h2', Bool.false_eq_true, if_false]

theorem processEnt_eq {ent : JVal} (s : Store) (n : Nat)
    (hnn : jsNullish ent = false) (hw : wrapChildren ent = none) :
    processEnt ent s n =
      (match entRecord ent with
       | some tw => addTweet tw s n
       | none =>
         if includesOk (entryTypeOf ent) then .ok (s, n)
         else .error "TypeError: entryType.includes is not a function") := by
  have hb : jsPropE ent "content" = .ok (jsProp ent "content") := by
    simp [jsPropE, hnn]
  simp only [processEnt, hb, exceptBind_ok, entRecord, hw, entTw, entIC]
  by_cases hj : jeq (jsOptProp (jsOptProp (jsOptProp (jsOptProp (jsCoalesce
      (jsProp ent "content") (jsProp ent "item")) "itemContent") "tweet_results") "result")
      "__typename") (.str "Tweet") = true
  · rw [if_pos hj, if_pos hj]
  · rw [if_neg hj, if_neg hj]

theorem foldTweets_append : ∀ (A B : List JVal) (s : Store) (n : Nat),
    foldTweets (A ++ B) s n =
      (match foldTweets A s n with
       | .ok p => foldTweets B p.1 p.2
       | .error e => .error e) := by
  intro A B
  induction A with
  | nil => intro s n; rfl
  | cons tw rest ih =>
    intro s n
    rw [List.cons_append]
    rw [foldTweets, foldTweets]
    cases ha : addTweet tw s n with
    | error e => rfl
    | ok p => exact ih p.1 p.2

theorem runQueue_level : ∀ (q : List JVal) (d : Nat) (r : List JVal) (f : Nat)
    (s : Store) (n : Nat), entsOk d q = true →
    ∃ s1 n1, foldTweets (levelRecs q) s n = .ok (s1, n1) ∧
      runQueue (f + q.length) (q ++ r) s n = runQueue f (r ++ childrenAll q) s1 n1 := by
  intro q
  induction q with
  | nil =>
    intro d r f s n _
    refine ⟨s, n, rfl, ?_⟩
    simp [childrenAll]
  | cons e q0 ih =>
    intro d r f s n h
    obtain ⟨he, hq⟩ := entsOk_cons.mp h
    cases d with
    | zero => exact absurd he (by simp [entOk])
    | succ d0 =>
      have hnn := entOk_nonnull he
      have hlen : f + (e :: q0).length = (f + q0.length) + 1 := by
        rw [List.length_cons]
        omega
      rw [List.cons_append, hlen]
      cases hw : wrapChildren e with
      | some items =>
        obtain ⟨hsp, _⟩ := entOk_wrap he hw
        have hstep : runQueue ((f + q0.length) + 1) (e :: (q0 ++ r)) s n =
            runQueue (f + q0.length) ((q0 ++ r) ++ childrenOf e) s n := by
          rw [runQueue_wrapStep hw, hsp]
        obtain ⟨s1, n1, hfold, hrun⟩ := ih (d0 + 1) (r ++ childrenOf e) f s n hq
        refine ⟨s1, n1, ?_, ?_⟩
        · rw [levelRecs, show entRecord e = none from by unfold entRecord; rw [hw]]
          simpa using hfold
        · rw [hstep, List.append_assoc, hrun,
            show childrenAll (e :: q0) = childrenOf e ++ childrenAll q0 from rfl,
            ← List.append_assoc]
      | none =>
        cases hr : entRecord e with
        | some tw =>
          have hfl := entOk_leaf he hw hr
          obtain ⟨s2, n2, hadd⟩ := addTweet_ok s n hfl
          have hpe : processEnt e s n = .ok (s2, n2) := by
            rw [processEnt_eq s n hnn hw, hr]
            exact hadd
          have hstep : runQueue ((f + q0.length) + 1) (e :: (q0 ++ r)) s n =
              runQueue (f + q0.length) (q0 ++ r) s2 n2 := by
            rw [runQueue_leafStep hw, hpe]
          obtain ⟨s1, n1, hfold, hrun⟩ := ih (d0 + 1) r f s2 n2 hq
          refine ⟨s1, n1, ?_, ?_⟩
          · rw [levelRecs, hr,
              show (some tw).toList ++ levelRecs q0 = tw :: levelRecs q0 from rfl,
              foldTweets, hadd]
            exact hfold
          · rw [hstep, hrun,
              show childrenAll (e :: q0) = childrenOf e ++ childrenAll q0 from rfl,
              show childrenOf e = [] from by unfold childrenOf; rw [hw],
              List.nil_append]
        | none =>
          have hinc := entOk_structural he hw hr
          have hpe : processEnt e s n = .ok (s, n) := by
            rw [processEnt_eq s n hnn hw, hr]
            exact if_pos hinc
          have hstep : runQueue ((f + q0.length) + 1) (e :: (q0 ++ r)) s n =
              runQueue (f + q0.length) (q0 ++ r) s n := by
            rw [runQueue_leafStep hw, hpe]
          obtain ⟨s1, n1, hfold, hrun⟩ := ih (d0 + 1) r f s n hq
          refine ⟨s1, n1, ?_, ?_⟩
          · rw [levelRecs, hr]
            simpa using hfold
          · rw [hstep, hrun,
              show childrenAll (e :: q0) = childrenOf e ++ childrenAll q0 from rfl,
              show childrenOf e = [] from by unfold childrenOf; rw [hw],
              List.nil_append]

theorem runQueue_bfs_aux : ∀ (N : Nat) (q : List JVal) (d f g : Nat) (s : Store) (n : Nat),
    sizeQ q ≤ N → entsOk d q = true → sizeQ q < f → sizeQ q < g →
    ∃ s' n', foldTweets (bfsRecs g q) s n = .ok (s', n') ∧
      runQueue f q s n = (s', n', .done) := by
  intro N
  induction N with
  | zero =>
    intro q d f g s n hN h hf hg
    have hq : q = [] := by
      cases q with
      | nil => rfl
      | cons e q0 =>
        rw [sizeQ_cons] at hN
        have := sizeJ_pos e
        omega
    subst hq
    refine ⟨s, n, ?_, ?_⟩
    · rw [show bfsRecs g [] = [] from by cases g <;> rfl]
      rfl
    · cases f with
      | zero => exact absurd hf (by simp [sizeQ])
      | succ f0 => rfl
  | succ N ih =>
    intro q d f g s n hN h hf hg
    cases q with
    | nil =>
      refine ⟨s, n, ?_, ?_⟩
      · rw [show bfsRecs g [] = [] from by cases g <;> rfl]
        rfl
      · cases f with
        | zero => exact absurd hf (by simp [sizeQ])
        | succ f0 => rfl
    | cons e q0 =>
      cases d with
      | zero => exact absurd (entsOk_cons.mp h).1 (by simp [entOk])
      | succ d0 =>
        cases g with
        | zero => exact absurd hg (Nat.not_lt_zero _)
        | succ g0 =>
          have hl1 : (e :: q0).length = q0.length + 1 := List.length_cons e q0
          have hlenq : (e :: q0).length ≤ sizeQ (e :: q0) := length_le_sizeQ _
          have hfge : (e :: q0).length ≤ f := by omega
          obtain ⟨s1, n1, hfold1, hrun1⟩ :=
            runQueue_level (e :: q0) (d0 + 1) [] (f - (e :: q0).length) s n h
          have hf' : (f - (e :: q0).length) + (e :: q0).length = f := Nat.sub_add_cancel hfge
          rw [hf', List.append_nil, List.nil_append] at hrun1
          have hcs := childrenAll_size (e :: q0)
          have hcok : entsOk d0 (childrenAll (e :: q0)) = true := entsOk_children _ h
          obtain ⟨s2, n2, hfold2, hrun2⟩ :=
            ih (childrenAll (e :: q0)) d0 (f - (e :: q0).length) g0 s1 n1
              (by omega) hcok (by omega) (by omega)
          refine ⟨s2, n2, ?_, ?_⟩
          · rw [show bfsRecs (g0 + 1) (e :: q0) =
                levelRecs (e :: q0) ++ bfsRecs g0 (childrenAll (e :: q0)) from rfl,
              foldTweets_append, hfold1]
            exact hfold2
          · rw [hrun1]
            exact hrun2

/-- Claim C3: for any well-formed resolved entry list (non-nullish entries,
wrapper items finite-depth arrays, records that flatten), and any fuel above
the payload size, the breadth-first work-queue walk terminates with status
done, and its whole effect on store and counter equals folding in the
level-order record list `bfsRecs` — every leaf record entity handed to the
store exactly once, in encounter order (wrapper children expanded at the back
of the queue, each dequeued entry examined once). -/
theorem C3_walk : ∀ (d f g : Nat) (q : List JVal) (s : Store) (n : Nat),
    entsOk d q = true → sizeQ q < f → sizeQ q < g →
    ∃ s' n', foldTweets (bfsRecs g q) s n = .ok (s', n') ∧
      runQueue f q s n = (s', n', .done) :=
  fun d f g q s n h hf hg => runQueue_bfs_aux (sizeQ q) q d f g s n le_rfl h hf hg

/-- A wrapper entry grouping the given child entries under `content.items`. -/
def wrapEntryOf (children : List JVal) : JVal :=
  jobj [("content", jobj [("items", jarr children)])]

/-- A structural cursor entry: no record, a string logging tag. -/
def cursorEntry : JVal :=
  jobj [("entryId", .str "cursor-bottom-1"),
        ("content", jobj [("entryType", .str "TimelineTimelineCursor")])]

/-- A queue whose first entry nests a record and a further wrapper (two
levels of nesting), followed by a plain leaf record and a structural cursor
entry. -/
def nestedQueue : List JVal :=
  [wrapEntryOf [entryOf "1", wrapEntryOf [entryOf "2"]], entryOf "3", cursorEntry]

/-- Claim C3 witness: on `nestedQueue` the walk completes — dropping the
structural cursor silently — its effect is the fold of the level-order
records, and that order is "3" (level 0), then "1" (level 1), then "2"
(level 2) — every nested leaf exactly once. -/
theorem C3_witness :
    (∃ s' n', foldTweets (bfsRecs 40 nestedQueue) [] 0 = .ok (s', n') ∧
        runQueue 40 nestedQueue [] 0 = (s', n', .done))
  ∧ bfsRecs 40 nestedQueue = [tweetNodeOf "3", tweetNodeOf "1", tweetNodeOf "2"]
  ∧ (runQueue 40 nestedQueue [] 0).2.1 = 3 :=
  ⟨C3_walk 3 40 40 nestedQueue [] 0 rfl (by decide) (by decide), rfl, rfl⟩
